import Mathlib

/-
Verification of the regret-classification core (`src/backend/regret_model.py`)
of the regretgpt repository.

Modelling conventions:
- Python strings are modelled as `List Char`.
- The upstream generation service (`model.generate_content`) is modelled as an
  oracle `gen : Nat → GenOutcome`, indexed by the number of upstream calls made
  so far in the classification: the n-th call either returns a response text or
  raises an exception carrying an error string.  The request payload and the
  per-candidate prompt/configuration only influence what is *sent* upstream,
  never how the classifier treats the response, so they are absorbed into the
  universal quantification over the oracle.
- `json.loads` is modelled by an executable recursive-descent parser over
  `List Char`.  JSON numbers are modelled as integers (fractional/exponent
  numerals are out of scope of every claim); Python `int()` underscore
  grouping and non-ASCII case mapping are likewise out of scope.
- Observable behaviour is recorded as a trace of events: upstream calls
  (candidate name and 0-based attempt index) and backoff sleeps (seconds).
- A Python exception escaping `classify_regret` is modelled by the `result`
  field being `none`; a returned dict is `some` of a five-field record.
-/

namespace RegretGPT

/-! ## Basic string machinery -/

def strL (s : String) : List Char := s.data

def lbrace : Char := Char.ofNat 123

def rbrace : Char := Char.ofNat 125

/-- Python `pat in hay` substring test. -/
def hasSub (pat : List Char) : List Char → Bool
  | [] => pat.isPrefixOf []
  | c :: rest => pat.isPrefixOf (c :: rest) || hasSub pat rest

/-- Python `str.lower()` (ASCII). -/
def lowerL (l : List Char) : List Char := l.map Char.toLower

/-- Whitespace stripped by Python `str.strip()` (ASCII subset). -/
def isPySpace (c : Char) : Bool :=
  c = ' ' || c = '\t' || c = '\n' || c = '\r' || c = Char.ofNat 11 || c = Char.ofNat 12

/-- Python `str.strip()`. -/
def pyStrip (l : List Char) : List Char :=
  ((l.dropWhile isPySpace).reverse.dropWhile isPySpace).reverse

/-! ## Error classification (regret_model.py lines 152 and 155) -/

/-- Line 152: `"404" in error_str or "not found" in error_str.lower() or
"not supported" in error_str.lower()`. -/
def isNotFoundErr (e : List Char) : Bool :=
  hasSub (strL "404") e || hasSub (strL "not found") (lowerL e) ||
    hasSub (strL "not supported") (lowerL e)

/-- Line 155: `"429" in error_str or "quota" in error_str.lower() or
"rate limit" in error_str.lower()`. -/
def isRateLimitErr (e : List Char) : Bool :=
  hasSub (strL "429") e || hasSub (strL "quota") (lowerL e) ||
    hasSub (strL "rate limit") (lowerL e)

/-! ## JSON values and `json.loads` -/

inductive Json where
  | null : Json
  | bool (b : Bool) : Json
  | num (n : Int) : Json
  | str (s : List Char) : Json
  | arr (elems : List Json) : Json
  | obj (members : List (List Char × Json)) : Json
deriving Repr

def Json.isStr : Json → Bool
  | Json.str _ => true
  | _ => false

/-- JSON whitespace (RFC 8259 / Python `json`). -/
def isJsonWs (c : Char) : Bool := c = ' ' || c = '\t' || c = '\n' || c = '\r'

def skipWs : List Char → List Char
  | [] => []
  | c :: rest => if isJsonWs c then skipWs rest else c :: rest

def isHexDig (c : Char) : Bool :=
  if ('0' ≤ c ∧ c ≤ '9') ∨ ('a' ≤ c ∧ c ≤ 'f') ∨ ('A' ≤ c ∧ c ≤ 'F') then true else false

def hexVal (c : Char) : Nat :=
  if '0' ≤ c ∧ c ≤ '9' then c.toNat - 48
  else if 'a' ≤ c ∧ c ≤ 'f' then c.toNat - 87
  else c.toNat - 55

/-- JSON string escape table. -/
def escMap (e : Char) : Option Char :=
  if e = '"' then some '"'
  else if e = '\\' then some '\\'
  else if e = '/' then some '/'
  else if e = 'b' then some (Char.ofNat 8)
  else if e = 'f' then some (Char.ofNat 12)
  else if e = 'n' then some '\n'
  else if e = 'r' then some '\r'
  else if e = 't' then some '\t'
  else none

/-- Body of a JSON string literal, after the opening quote; returns the decoded
content and the rest of the input after the closing quote. -/
def parseStringBody : Nat → List Char → Option (List Char × List Char)
  | 0, _ => none
  | _ + 1, [] => none
  | f + 1, c :: rest =>
    if c = '"' then some ([], rest)
    else if c = '\\' then
      match rest with
      | [] => none
      | e :: rest2 =>
        match escMap e with
        | some d => (parseStringBody f rest2).map (fun p => (d :: p.1, p.2))
        | none =>
          if e = 'u' then
            match rest2 with
            | h1 :: h2 :: h3 :: h4 :: rest3 =>
              if isHexDig h1 && isHexDig h2 && isHexDig h3 && isHexDig h4 then
                (parseStringBody f rest3).map (fun p =>
                  (Char.ofNat (((hexVal h1 * 16 + hexVal h2) * 16 + hexVal h3) * 16 + hexVal h4)
                    :: p.1, p.2))
              else none
            | _ => none
          else none
    else if c.toNat < 32 then none
    else (parseStringBody f rest).map (fun p => (c :: p.1, p.2))

def digitsToNat (ds : List Char) : Nat :=
  ds.foldl (fun a c => a * 10 + (c.toNat - 48)) 0

/-- JSON integer numeral (fractional/exponent forms are modelled as failures;
no claim depends on them). -/
def parseJsonNumber (l : List Char) : Option (Int × List Char) :=
  let p : Bool × List Char :=
    match l with
    | c :: rest => if c = '-' then (true, rest) else (false, l)
    | [] => (false, [])
  let ds := p.2.takeWhile Char.isDigit
  let rest := p.2.dropWhile Char.isDigit
  let v : Int := if p.1 then -(digitsToNat ds : Int) else (digitsToNat ds : Int)
  if ds = [] then none
  else if ds.head? = some '0' ∧ 1 < ds.length then none
  else
    match rest with
    | c :: _ => if c = '.' ∨ c = 'e' ∨ c = 'E' then none else some (v, rest)
    | [] => some (v, [])

mutual

def parseJsonVal : Nat → List Char → Option (Json × List Char)
  | 0, _ => none
  | f + 1, l =>
    match skipWs l with
    | [] => none
    | c :: rest =>
      if c = '"' then
        (parseStringBody (f + 1) rest).map (fun p => (Json.str p.1, p.2))
      else if c = lbrace then parseObjBody f rest
      else if c = '[' then parseArrBody f rest
      else if c = 't' then
        if (strL "rue").isPrefixOf rest then some (Json.bool true, rest.drop 3) else none
      else if c = 'f' then
        if (strL "alse").isPrefixOf rest then some (Json.bool false, rest.drop 4) else none
      else if c = 'n' then
        if (strL "ull").isPrefixOf rest then some (Json.null, rest.drop 3) else none
      else
        (parseJsonNumber (c :: rest)).map (fun p => (Json.num p.1, p.2))

/-- After an opening brace: an empty object or the first member. -/
def parseObjBody : Nat → List Char → Option (Json × List Char)
  | 0, _ => none
  | f + 1, l =>
    match skipWs l with
    | [] => none
    | c :: rest =>
      if c = rbrace then some (Json.obj [], rest)
      else if c = '"' then
        match parseStringBody (f + 1) rest with
        | none => none
        | some (key, r1) =>
          match skipWs r1 with
          | ':' :: r2 =>
            match parseJsonVal f r2 with
            | none => none
            | some (v, r3) => parseObjRest f [(key, v)] r3
          | _ => none
      else none

/-- After a member: a comma followed by another member, or the closing brace. -/
def parseObjRest : Nat → List (List Char × Json) → List Char → Option (Json × List Char)
  | 0, _, _ => none
  | f + 1, acc, l =>
    match skipWs l with
    | ',' :: r =>
      match skipWs r with
      | c :: r1 =>
        if c = '"' then
          match parseStringBody (f + 1) r1 with
          | none => none
          | some (key, r2) =>
            match skipWs r2 with
            | ':' :: r3 =>
              match parseJsonVal f r3 with
              | none => none
              | some (v, r4) => parseObjRest f (acc ++ [(key, v)]) r4
            | _ => none
        else none
      | [] => none
    | c :: r => if c = rbrace then some (Json.obj acc, r) else none
    | [] => none

/-- After an opening bracket: an empty array or the first element. -/
def parseArrBody : Nat → List Char → Option (Json × List Char)
  | 0, _ => none
  | f + 1, l =>
    match skipWs l with
    | ']' :: r => some (Json.arr [], r)
    | _ =>
      match parseJsonVal f l with
      | none => none
      | some (v, r1) => parseArrRest f [v] r1

/-- After an element: a comma followed by another element, or the closing bracket. -/
def parseArrRest : Nat → List Json → List Char → Option (Json × List Char)
  | 0, _, _ => none
  | f + 1, acc, l =>
    match skipWs l with
    | ',' :: r =>
      match parseJsonVal f r with
      | none => none
      | some (v, r1) => parseArrRest f (acc ++ [v]) r1
    | ']' :: r => some (Json.arr acc, r)
    | _ => none

end

/-- `json.loads`: parse a full text, allowing surrounding whitespace only. -/
def parseJsonText (l : List Char) : Option Json :=
  match parseJsonVal (2 * l.length + 2) l with
  | some (j, rest) => if skipWs rest = [] then some j else none
  | none => none

/-! ## Python dict access and `int()` coercion -/

/-- Python dict lookup (`json.loads` keeps the last of duplicate keys). -/
def jLookup (ms : List (List Char × Json)) (k : List Char) : Option Json :=
  match ms with
  | [] => none
  | (k', v) :: rest =>
    match jLookup rest k with
    | some v' => some v'
    | none => if k' = k then some v else none

/-- Python `dict.get(k, default)`. -/
def jgetD (ms : List (List Char × Json)) (k : List Char) (d : Json) : Json :=
  (jLookup ms k).getD d

/-- Python `int(s)` on a string: optional sign and digits, surrounding
whitespace tolerated; anything else raises (`none`). -/
def strToIntOpt (s : List Char) : Option Int :=
  let t := pyStrip s
  let p : Int × List Char :=
    match t with
    | c :: rest =>
      if c = '-' then (-1, rest) else if c = '+' then (1, rest) else (1, t)
    | [] => (1, [])
  if p.2 ≠ [] ∧ p.2.all Char.isDigit then some (p.1 * (digitsToNat p.2 : Int)) else none

/-- Python `int(x)` on a parsed JSON value; `none` models a raised
`TypeError`/`ValueError`. -/
def pyInt : Json → Option Int
  | Json.num n => some n
  | Json.bool b => some (if b then 1 else 0)
  | Json.str s => strToIntOpt s
  | _ => none

/-! ## Response-text extraction (regret_model.py lines 193..218) -/

/-- Lines 194..200: strip a leading Markdown code-fence marker (with optional
`json` language tag) and a trailing fence marker. -/
def stripFences (t0 : List Char) : List Char :=
  let t1 := pyStrip t0
  let t2 :=
    if (strL "```json").isPrefixOf t1 then pyStrip (t1.drop 7)
    else if (strL "```").isPrefixOf t1 then pyStrip (t1.drop 3)
    else t1
  if (strL "```").isSuffixOf t2 then pyStrip (t2.take (t2.length - 3)) else t2

/-- Index of the first opening brace (`response_text.find` at line 204). -/
def firstLbraceIdx : List Char → Option Nat
  | [] => none
  | c :: rest =>
    if c = lbrace then some 0 else (firstLbraceIdx rest).map (· + 1)

/-- Lines 207..216: scan forward from the first brace keeping a nesting count;
returns the relative index at which the count returns to zero. -/
def braceScanAux : List Char → Nat → Int → Option Nat
  | [], _, _ => none
  | c :: rest, i, d =>
    if c = lbrace then braceScanAux rest (i + 1) (d + 1)
    else if c = rbrace then
      if d - 1 = 0 then some i else braceScanAux rest (i + 1) (d - 1)
    else braceScanAux rest (i + 1) d

/-- Lines 204..218: slice out the brace-delimited substring when the scan
finds a matching close; otherwise keep the whole text. -/
def find_and_slice (t : List Char) : List Char :=
  match firstLbraceIdx t with
  | none => t
  | some s =>
    match braceScanAux (t.drop s) 0 0 with
    | some e => (t.drop s).take (e + 1)
    | none => t

/-- Lines 193..218: the full extraction step applied to the raw model text. -/
def extract_json (t : List Char) : List Char :=
  find_and_slice (stripFences t)

/-- Line 220: `json.loads` applied to the extracted text. -/
def parsedData (t : List Char) : Option Json :=
  parseJsonText (extract_json t)

/-! ## Fixed fallback dicts (lines 225 and 231) -/

/-- Line 225: the parse-failure fallback dict. -/
def parseFailData : Json :=
  Json.obj
    [ (strL "regret_score", Json.num 0)
    , (strL "reason", Json.str (strL "Failed to parse response."))
    , (strL "intervention_strength", Json.str (strL "NONE"))
    , (strL "llm_message", Json.str (strL "Error occurred."))
    , (strL "future_regret_simulation", Json.str []) ]

/-- Line 231: the API-error fallback dict, embedding the error string. -/
def apiErrorData (e : List Char) : Json :=
  Json.obj
    [ (strL "regret_score", Json.num 0)
    , (strL "reason", Json.str (strL "API error: " ++ e))
    , (strL "intervention_strength", Json.str (strL "NONE"))
    , (strL "llm_message", Json.str (strL "API error occurred."))
    , (strL "future_regret_simulation", Json.str []) ]

/-- Line 181: the message of the generic exception raised when no candidate
produced a response and no error was recorded. -/
def genericFailMsg : List Char :=
  strL "Failed to generate response from any available model"

/-! ## The result shape and sanitization (lines 233..246) -/

/-- The returned mapping: exactly five keys.  `regret_score` is an `Int`
because line 234 coerces it with `int()`; the other four values are passed
through verbatim as JSON values. -/
structure ClassificationResult where
  regret_score : Int
  reason : Json
  intervention_strength : Json
  llm_message : Json
  simulation : Json
deriving Repr

/-- Lines 233..246.  `none` models an exception escaping the sanitize block,
which sits outside every `try`: `int()` on a non-coercible score value, or
`.get` on a parsed non-dict (`AttributeError`). -/
def sanitize : Json → Option ClassificationResult
  | Json.obj ms =>
    match pyInt (jgetD ms (strL "regret_score") (Json.num 0)) with
    | some n =>
      some
        { regret_score := n
        , reason := jgetD ms (strL "reason") (Json.str (strL "No reason given."))
        , intervention_strength := jgetD ms (strL "intervention_strength") (Json.str (strL "NONE"))
        , llm_message := jgetD ms (strL "llm_message") (Json.str (strL "You sure about this?"))
        , simulation := jgetD ms (strL "future_regret_simulation") (Json.str []) }
    | none => none
  | _ => none

/-! ## The model-fallback loop (lines 94..181) -/

/-- One upstream call: a response text, or a raised exception's string. -/
inductive GenOutcome where
  | ok (text : List Char) : GenOutcome
  | err (msg : List Char) : GenOutcome

/-- Observable events of a classification run. -/
inductive Ev where
  | call (name : List Char) (attempt : Nat) : Ev
  | sleepEv (secs : Nat) : Ev
deriving Repr, DecidableEq

def AVAILABLE_MODELS : List (List Char) :=
  [strL "gemma-3-27b-it", strL "gemma-3-27b-instruct", strL "gemini-2.5-flash"]

def maxRetries : Nat := 3

def retryDelay : Nat := 1

/-- How the retry loop for one candidate ends. -/
inductive AttOut where
  | success (text : List Char) : AttOut
  | nextModel (lastErr : Option (List Char)) : AttOut
  | raised (e : List Char) : AttOut

structure AttRes where
  out : AttOut
  nCalls : Nat
  events : List Ev

/-- Lines 105..171: the retry loop for one candidate.  Arguments: remaining
iterations of `range(max_retries)`, index of the next upstream call, current
attempt index, and the `last_error` variable. -/
def runAttempts (gen : Nat → GenOutcome) (name : List Char) :
    Nat → Nat → Nat → Option (List Char) → AttRes
  | 0, _, _, le => ⟨AttOut.nextModel le, 0, []⟩
  | r + 1, k, att, _ =>
    match gen k with
    | GenOutcome.ok t => ⟨AttOut.success t, 1, [Ev.call name att]⟩
    | GenOutcome.err e =>
      if isNotFoundErr e then ⟨AttOut.nextModel (some e), 1, [Ev.call name att]⟩
      else if isRateLimitErr e then
        if att < maxRetries - 1 then
          let R := runAttempts gen name r (k + 1) (att + 1) (some e)
          ⟨R.out, R.nCalls + 1, Ev.call name att :: Ev.sleepEv (retryDelay * 2 ^ att) :: R.events⟩
        else ⟨AttOut.raised e, 1, [Ev.call name att]⟩
      else
        if att < maxRetries - 1 then
          let R := runAttempts gen name r (k + 1) (att + 1) (some e)
          ⟨R.out, R.nCalls + 1, Ev.call name att :: Ev.sleepEv retryDelay :: R.events⟩
        else ⟨AttOut.raised e, 1, [Ev.call name att]⟩

/-- How the candidate loop ends. -/
inductive LoopOut where
  | ok (text : List Char) (name : List Char) : LoopOut
  | raised (e : List Char) : LoopOut
  | exhausted (lastErr : Option (List Char)) : LoopOut

structure LoopRes where
  out : LoopOut
  nCalls : Nat
  events : List Ev

/-- Lines 104..174: iterate the candidate list in order; a raised exception
aborts the whole loop, a per-candidate failure moves to the next candidate,
the first success stops the iteration. -/
def runModels (gen : Nat → GenOutcome) :
    List (List Char) → Nat → Option (List Char) → LoopRes
  | [], _, le => ⟨LoopOut.exhausted le, 0, []⟩
  | name :: rest, k, le =>
    let A := runAttempts gen name maxRetries k 0 le
    match A.out with
    | AttOut.success t => ⟨LoopOut.ok t name, A.nCalls, A.events⟩
    | AttOut.raised e => ⟨LoopOut.raised e, A.nCalls, A.events⟩
    | AttOut.nextModel le' =>
      let M := runModels gen rest (k + A.nCalls) le'
      ⟨M.out, A.nCalls + M.nCalls, A.events ++ M.events⟩

/-! ## classify_regret (lines 71..246) -/

/-- The `data` variable as it stands at line 233: the parsed upstream object,
or the parse-failure dict, or the API-error dict built by the outer handler
(lines 176..181 raise, line 226 catches, line 231 builds). -/
def classify_data (gen : Nat → GenOutcome) : Json :=
  match (runModels gen AVAILABLE_MODELS 0 none).out with
  | LoopOut.ok t _ =>
    match parsedData t with
    | some j => j
    | none => parseFailData
  | LoopOut.raised e => apiErrorData e
  | LoopOut.exhausted le => apiErrorData (le.getD genericFailMsg)

/-- Python truthiness of the `_cached_model_name` global. -/
def pyFalsy : Option (List Char) → Bool
  | none => true
  | some s => s.isEmpty

structure ClassifyOut where
  result : Option ClassificationResult
  cacheAfter : Option (List Char)
  events : List Ev

/-- `classify_regret(payload)` for one process state of `_cached_model_name`.
The request payload only shapes the upstream prompt, which the oracle `gen`
absorbs.  `result = none` models an exception escaping to the caller;
lines 141..144 update the cache on success before parsing, so the cache is
updated even when the sanitize block raises. -/
def classify_regret (gen : Nat → GenOutcome) (cache : Option (List Char)) : ClassifyOut :=
  let L := runModels gen AVAILABLE_MODELS 0 none
  let cache' :=
    match L.out with
    | LoopOut.ok _ name => if pyFalsy cache then some name else cache
    | _ => cache
  ⟨sanitize (classify_data gen), cache', L.events⟩

/-- Lines 30..36: `get_available_model`. -/
def get_available_model (c : Option (List Char)) : List Char :=
  match c with
  | some s => if s.isEmpty then strL "gemma-3-27b-it" else s
  | none => strL "gemma-3-27b-it"

/-- The model identifier cached by one call, if that call succeeded. -/
def winnerOf (gen : Nat → GenOutcome) : Option (List Char) :=
  match (runModels gen AVAILABLE_MODELS 0 none).out with
  | LoopOut.ok _ name => some name
  | _ => none

/-- The `_cached_model_name` global over a whole process life: starts at
`None` and is threaded through a sequence of `classify_regret` calls. -/
def processRun (gens : List (Nat → GenOutcome)) : Option (List Char) :=
  gens.foldl (fun c g => (classify_regret g c).cacheAfter) none

/-! ## Trace helpers -/

/-- The upstream calls of an event trace, in order. -/
def callsOf (evs : List Ev) : List (List Char × Nat) :=
  evs.filterMap (fun ev =>
    match ev with
    | Ev.call n a => some (n, a)
    | Ev.sleepEv _ => none)

/-- Number of upstream calls in an event trace. -/
def countCalls (evs : List Ev) : Nat := (callsOf evs).length

/-- In the pre-sanitize dict, the entry at `k` is absent or a string. -/
def strOrAbsent (d : Json) (k : List Char) : Bool :=
  match d with
  | Json.obj ms => (jLookup ms k).all Json.isStr
  | _ => true

/-- The sanitized API-error default result of claim C3. -/
def apiDefaultResult (e : List Char) : ClassificationResult :=
  { regret_score := 0
  , reason := Json.str (strL "API error: " ++ e)
  , intervention_strength := Json.str (strL "NONE")
  , llm_message := Json.str (strL "API error occurred.")
  , simulation := Json.str [] }

/-- The block of calls one candidate produces: attempts `att, att+1, ...`,
`c` of them. -/
def attList (name : List Char) : Nat → Nat → List (List Char × Nat)
  | _, 0 => []
  | att, c + 1 => (name, att) :: attList name (att + 1) c

/-! ## Helper lemmas -/

theorem callsOf_nil : callsOf [] = [] := rfl

theorem callsOf_cons_call (name : List Char) (a : Nat) (evs : List Ev) :
    callsOf (Ev.call name a :: evs) = (name, a) :: callsOf evs := rfl

theorem callsOf_cons_sleep (s : Nat) (evs : List Ev) :
    callsOf (Ev.sleepEv s :: evs) = callsOf evs := rfl

theorem callsOf_append (l₁ l₂ : List Ev) :
    callsOf (l₁ ++ l₂) = callsOf l₁ ++ callsOf l₂ := by
  simp [callsOf]

theorem countCalls_append (l₁ l₂ : List Ev) :
    countCalls (l₁ ++ l₂) = countCalls l₁ + countCalls l₂ := by
  simp [countCalls, callsOf_append]

theorem countCalls_cons_call (name : List Char) (a : Nat) (evs : List Ev) :
    countCalls (Ev.call name a :: evs) = countCalls evs + 1 := by
  simp [countCalls, callsOf_cons_call, Nat.add_comm]

theorem countCalls_cons_sleep (s : Nat) (evs : List Ev) :
    countCalls (Ev.sleepEv s :: evs) = countCalls evs := rfl

theorem attList_length (name : List Char) : ∀ c att, (attList name att c).length = c := by
  intro c
  induction c with
  | zero => intro att; rfl
  | succ n ih => intro att; simp [attList, ih]

theorem attList_map_fst (name : List Char) :
    ∀ c att, (attList name att c).map Prod.fst = List.replicate c name := by
  intro c
  induction c with
  | zero => intro att; rfl
  | succ n ih => intro att; simp [attList, ih, List.replicate_succ]

theorem attList_getElem? (name : List Char) :
    ∀ c att i, (attList name att c)[i]? = if i < c then some (name, att + i) else none := by
  intro c
  induction c with
  | zero => intro att i; simp [attList]
  | succ n ih =>
    intro att i
    cases i with
    | zero => simp [attList]
    | succ m =>
      simp only [attList, List.getElem?_cons_succ, ih]
      by_cases h : m < n
      · simp [h, Nat.lt_succ_of_lt, Nat.succ_lt_succ h]
        omega
      · have h2 : ¬ (m + 1 < n + 1) := by omega
        simp [h, h2]

/-- Splitting an append at a distinguished cons cell. -/
theorem append_cons_split {α : Type} (x : α) :
    ∀ (l₁ l₂ p t : List α), l₁ ++ l₂ = p ++ x :: t →
      (∃ t₁, l₁ = p ++ x :: t₁ ∧ t = t₁ ++ l₂) ∨
      (∃ p₂, p = l₁ ++ p₂ ∧ l₂ = p₂ ++ x :: t) := by
  intro l₁
  induction l₁ with
  | nil =>
    intro l₂ p t h
    right
    exact ⟨p, rfl, h⟩
  | cons a l' ih =>
    intro l₂ p t h
    cases p with
    | nil =>
      simp only [List.nil_append, List.cons_append, List.cons.injEq] at h
      left
      exact ⟨l', by simp [h.1], h.2.symm⟩
    | cons b p' =>
      simp only [List.cons_append, List.cons.injEq] at h
      rcases ih l₂ p' t h.2 with ⟨t₁, h1, h2⟩ | ⟨p₂, h1, h2⟩
      · left
        exact ⟨t₁, by simp [h.1, h1], h2⟩
      · right
        exact ⟨p₂, by simp [h.1, h1], h2⟩

theorem runAttempts_first_event (gen : Nat → GenOutcome) (name : List Char) :
    ∀ r k att le, 1 ≤ r →
      ∃ tl, (runAttempts gen name r k att le).events = Ev.call name att :: tl := by
  intro r k att le h1
  cases r with
  | zero => omega
  | succ n =>
    cases hg : gen k with
    | ok t => exact ⟨[], by simp [runAttempts, hg]⟩
    | err e =>
      by_cases hnf : isNotFoundErr e = true
      · exact ⟨[], by simp [runAttempts, hg, hnf]⟩
      · by_cases hrl : isRateLimitErr e = true
        · by_cases hatt : att < maxRetries - 1
          · refine ⟨Ev.sleepEv (retryDelay * 2 ^ att)
              :: (runAttempts gen name n (k + 1) (att + 1) (some e)).events, ?_⟩
            simp [runAttempts, hg, hnf, hrl, hatt]
          · exact ⟨[], by simp [runAttempts, hg, hnf, hrl, hatt]⟩
        · by_cases hatt : att < maxRetries - 1
          · refine ⟨Ev.sleepEv retryDelay
              :: (runAttempts gen name n (k + 1) (att + 1) (some e)).events, ?_⟩
            simp [runAttempts, hg, hnf, hrl, hatt]
          · exact ⟨[], by simp [runAttempts, hg, hnf, hrl, hatt]⟩

/-- Full characterization of one candidate's retry loop: it makes `c`
consecutive upstream calls (`1 ≤ c ≤ r`) at ascending attempt indices, every
call before the last raised a non-not-found error, and the loop ends in
success, a not-found skip, or a re-raise, each matching the last call. -/
theorem runAttempts_spec (gen : Nat → GenOutcome) (name : List Char) :
    ∀ r att k le, att + r = 3 → 1 ≤ r →
    ∃ c, 1 ≤ c ∧ c ≤ r ∧
      (runAttempts gen name r k att le).nCalls = c ∧
      callsOf (runAttempts gen name r k att le).events = attList name att c ∧
      (∀ j, j + 1 < c → ∃ e, gen (k + j) = GenOutcome.err e ∧ isNotFoundErr e = false) ∧
      ((∃ t, (runAttempts gen name r k att le).out = AttOut.success t
          ∧ gen (k + (c - 1)) = GenOutcome.ok t) ∨
       (∃ e, (runAttempts gen name r k att le).out = AttOut.nextModel (some e)
          ∧ gen (k + (c - 1)) = GenOutcome.err e ∧ isNotFoundErr e = true) ∨
       (∃ e, (runAttempts gen name r k att le).out = AttOut.raised e
          ∧ gen (k + (c - 1)) = GenOutcome.err e ∧ isNotFoundErr e = false)) := by
  intro r
  induction r with
  | zero => intro att k le _ h1; omega
  | succ n ih =>
    intro att k le hinv _
    cases hg : gen k with
    | ok t =>
      refine ⟨1, le_refl 1, by omega, ?_, ?_, ?_, ?_⟩
      · simp [runAttempts, hg]
      · simp [runAttempts, hg, callsOf, attList]
      · intro j hj; omega
      · left; exact ⟨t, by simp [runAttempts, hg], by simpa using hg⟩
    | err e =>
      by_cases hnf : isNotFoundErr e = true
      · refine ⟨1, le_refl 1, by omega, ?_, ?_, ?_, ?_⟩
        · simp [runAttempts, hg, hnf]
        · simp [runAttempts, hg, hnf, callsOf, attList]
        · intro j hj; omega
        · right; left
          exact ⟨e, by simp [runAttempts, hg, hnf], by simpa using hg, hnf⟩
      · by_cases hatt : att < maxRetries - 1
        · have hn1 : 1 ≤ n := by simp [maxRetries] at hatt; omega
          have hinv' : (att + 1) + n = 3 := by simp [maxRetries] at hatt; omega
          obtain ⟨c, hc1, hcn, hN, hC, hI, hO⟩ := ih (att + 1) (k + 1) (some e) hinv' hn1
          have hidx : (k + 1) + (c - 1) = k + ((c + 1) - 1) := by omega
          by_cases hrl : isRateLimitErr e = true
          · refine ⟨c + 1, by omega, by omega, ?_, ?_, ?_, ?_⟩
            · simp [runAttempts, hg, hnf, hrl, hatt, hN]
            · simp [runAttempts, hg, hnf, hrl, hatt, callsOf_cons_call,
                callsOf_cons_sleep, hC, attList]
            · intro j hj
              cases j with
              | zero => exact ⟨e, by simpa using hg, by simpa using hnf⟩
              | succ m =>
                obtain ⟨e', he', hnf'⟩ := hI m (by omega)
                refine ⟨e', ?_, hnf'⟩
                have hm : k + (m + 1) = (k + 1) + m := by omega
                rw [hm]; exact he'
            · rcases hO with ⟨t, ho, hgen⟩ | ⟨e', ho, hgen, hnf'⟩ | ⟨e', ho, hgen, hnf'⟩
              · left
                refine ⟨t, ?_, ?_⟩
                · simpa [runAttempts, hg, hnf, hrl, hatt] using ho
                · rw [← hidx]; exact hgen
              · right; left
                refine ⟨e', ?_, ?_, hnf'⟩
                · simpa [runAttempts, hg, hnf, hrl, hatt] using ho
                · rw [← hidx]; exact hgen
              · right; right
                refine ⟨e', ?_, ?_, hnf'⟩
                · simpa [runAttempts, hg, hnf, hrl, hatt] using ho
                · rw [← hidx]; exact hgen
          · refine ⟨c + 1, by omega, by omega, ?_, ?_, ?_, ?_⟩
            · simp [runAttempts, hg, hnf, hrl, hatt, hN]
            · simp [runAttempts, hg, hnf, hrl, hatt, callsOf_cons_call,
                callsOf_cons_sleep, hC, attList]
            · intro j hj
              cases j with
              | zero => exact ⟨e, by simpa using hg, by simpa using hnf⟩
              | succ m =>
                obtain ⟨e', he', hnf'⟩ := hI m (by omega)
                refine ⟨e', ?_, hnf'⟩
                have hm : k + (m + 1) = (k + 1) + m := by omega
                rw [hm]; exact he'
            · rcases hO with ⟨t, ho, hgen⟩ | ⟨e', ho, hgen, hnf'⟩ | ⟨e', ho, hgen, hnf'⟩
              · left
                refine ⟨t, ?_, ?_⟩
                · simpa [runAttempts, hg, hnf, hrl, hatt] using ho
                · rw [← hidx]; exact hgen
              · right; left
                refine ⟨e', ?_, ?_, hnf'⟩
                · simpa [runAttempts, hg, hnf, hrl, hatt] using ho
                · rw [← hidx]; exact hgen
              · right; right
                refine ⟨e', ?_, ?_, hnf'⟩
                · simpa [runAttempts, hg, hnf, hrl, hatt] using ho
                · rw [← hidx]; exact hgen
        · by_cases hrl : isRateLimitErr e = true
          · refine ⟨1, le_refl 1, by omega, ?_, ?_, ?_, ?_⟩
            · simp [runAttempts, hg, hnf, hrl, hatt]
            · simp [runAttempts, hg, hnf, hrl, hatt, callsOf, attList]
            · intro j hj; omega
            · right; right
              exact ⟨e, by simp [runAttempts, hg, hnf, hrl, hatt],
                by simpa using hg, by simpa using hnf⟩
          · refine ⟨1, le_refl 1, by omega, ?_, ?_, ?_, ?_⟩
            · simp [runAttempts, hg, hnf, hrl, hatt]
            · simp [runAttempts, hg, hnf, hrl, hatt, callsOf, attList]
            · intro j hj; omega
            · right; right
              exact ⟨e, by simp [runAttempts, hg, hnf, hrl, hatt],
                by simpa using hg, by simpa using hnf⟩

theorem runAttempts_countCalls (gen : Nat → GenOutcome) (name : List Char) :
    ∀ r k att le,
      countCalls (runAttempts gen name r k att le).events
        = (runAttempts gen name r k att le).nCalls := by
  intro r
  induction r with
  | zero => intro k att le; rfl
  | succ n ih =>
    intro k att le
    cases hg : gen k with
    | ok t => simp [runAttempts, hg, countCalls, callsOf]
    | err e =>
      by_cases hnf : isNotFoundErr e = true
      · simp [runAttempts, hg, hnf, countCalls, callsOf]
      · by_cases hatt : att < maxRetries - 1
        · by_cases hrl : isRateLimitErr e = true
          · simp [runAttempts, hg, hnf, hrl, hatt, countCalls_cons_call,
              countCalls_cons_sleep, ih]
          · simp [runAttempts, hg, hnf, hrl, hatt, countCalls_cons_call,
              countCalls_cons_sleep, ih]
        · by_cases hrl : isRateLimitErr e = true
          · simp [runAttempts, hg, hnf, hrl, hatt, countCalls, callsOf]
          · simp [runAttempts, hg, hnf, hrl, hatt, countCalls, callsOf]

theorem flatten_zip_zero {α : Type} :
    ∀ l : List α, (List.zipWith List.replicate (List.replicate l.length 0) l).flatten = [] := by
  intro l
  induction l with
  | nil => rfl
  | cons a t ih =>
    rw [List.length_cons, List.replicate_succ, List.zipWith_cons_cons, List.flatten_cons]
    simpa using ih

/-- The candidate-loop conclusions when the whole trace is a single
candidate's block of `c` calls. -/
theorem block_only_spec (gen : Nat → GenOutcome) (name : List Char)
    (rest : List (List Char)) (k c : Nat)
    (hc1 : 1 ≤ c) (hc3 : c ≤ 3)
    (hI : ∀ j, j + 1 < c → ∃ e, gen (k + j) = GenOutcome.err e ∧ isNotFoundErr e = false) :
    ∃ ns : List Nat, ns.length = (name :: rest).length ∧ (∀ x ∈ ns, x ≤ 3) ∧
      (attList name 0 c).map Prod.fst = (List.zipWith List.replicate ns (name :: rest)).flatten ∧
      (attList name 0 c).length ≤ 3 * (name :: rest).length ∧
      (∀ i, i + 1 < (attList name 0 c).length → ∃ e, gen (k + i) = GenOutcome.err e) ∧
      (∀ q0, (attList name 0 c)[0]? = some q0 → q0.2 = 0 ∧ q0.1 ∈ name :: rest) ∧
      (∀ i nm a e q, (attList name 0 c)[i]? = some (nm, a) → gen (k + i) = GenOutcome.err e →
        isNotFoundErr e = true → (attList name 0 c)[i + 1]? = some q → q.2 = 0 ∧ q.1 ≠ nm) := by
  refine ⟨c :: List.replicate rest.length 0, by simp, ?_, ?_, ?_, ?_, ?_, ?_⟩
  · intro x hx
    simp only [List.mem_cons, List.mem_replicate] at hx
    rcases hx with h | h
    · omega
    · omega
  · simp [attList_map_fst, flatten_zip_zero]
  · simp [attList_length]; omega
  · intro i hi
    rw [attList_length] at hi
    obtain ⟨e, he, _⟩ := hI i hi
    exact ⟨e, he⟩
  · intro q0 hq0
    rw [attList_getElem?] at hq0
    simp only [hc1, if_pos (by omega : 0 < c)] at hq0
    cases hq0
    simp
  · intro i nm a e q hp hg hnf hq
    rw [attList_getElem?] at hp hq
    by_cases hic : i < c
    · simp only [if_pos hic] at hp
      by_cases hic1 : i + 1 < c
      · obtain ⟨e', he', hnf'⟩ := hI i hic1
        rw [he'] at hg
        cases hg
        rw [hnf] at hnf'
        cases hnf'
      · simp only [if_neg hic1] at hq
        cases hq
    · simp only [if_neg hic] at hp
      cases hp

/-- Full characterization of the candidate loop for claim C6: the call trace
is a concatenation, in candidate-list order, of per-candidate blocks of at
most 3 attempts each; every call but the last failed; and a not-found failure
is followed (if at all) by attempt 0 of a different candidate. -/
theorem runModels_spec (gen : Nat → GenOutcome) :
    ∀ ms k le, ms.Nodup →
    ∃ ns : List Nat, ns.length = ms.length ∧ (∀ x ∈ ns, x ≤ 3) ∧
      (callsOf (runModels gen ms k le).events).map Prod.fst
        = (List.zipWith List.replicate ns ms).flatten ∧
      (callsOf (runModels gen ms k le).events).length ≤ 3 * ms.length ∧
      (∀ i, i + 1 < (callsOf (runModels gen ms k le).events).length →
        ∃ e, gen (k + i) = GenOutcome.err e) ∧
      (∀ q0, (callsOf (runModels gen ms k le).events)[0]? = some q0 →
        q0.2 = 0 ∧ q0.1 ∈ ms) ∧
      (∀ i nm a e q, (callsOf (runModels gen ms k le).events)[i]? = some (nm, a) →
        gen (k + i) = GenOutcome.err e → isNotFoundErr e = true →
        (callsOf (runModels gen ms k le).events)[i + 1]? = some q →
        q.2 = 0 ∧ q.1 ≠ nm) := by
  intro ms
  induction ms with
  | nil =>
    intro k le _
    exact ⟨[], by simp [runModels, callsOf], by simp, by simp [runModels, callsOf],
      by simp [runModels, callsOf], by simp [runModels, callsOf],
      by simp [runModels, callsOf], by simp [runModels, callsOf]⟩
  | cons name rest ih =>
    intro k le hnd
    obtain ⟨hname, hrest⟩ := List.nodup_cons.mp hnd
    obtain ⟨c, hc1, hc3, hN, hC, hI, hO⟩ :=
      runAttempts_spec gen name maxRetries 0 k le (by simp [maxRetries]) (by simp [maxRetries])
    have hc3' : c ≤ 3 := by simpa [maxRetries] using hc3
    cases hA : (runAttempts gen name maxRetries k 0 le).out with
    | success t =>
      have hev : (runModels gen (name :: rest) k le).events
          = (runAttempts gen name maxRetries k 0 le).events := by
        simp [runModels, hA]
      rw [hev, hC]
      exact block_only_spec gen name rest k c hc1 hc3' hI
    | raised e =>
      have hev : (runModels gen (name :: rest) k le).events
          = (runAttempts gen name maxRetries k 0 le).events := by
        simp [runModels, hA]
      rw [hev, hC]
      exact block_only_spec gen name rest k c hc1 hc3' hI
    | nextModel le' =>
      have hev : (runModels gen (name :: rest) k le).events
          = (runAttempts gen name maxRetries k 0 le).events
            ++ (runModels gen rest (k + (runAttempts gen name maxRetries k 0 le).nCalls) le').events := by
        simp [runModels, hA]
      have hlast : ∃ e, gen (k + (c - 1)) = GenOutcome.err e := by
        rcases hO with ⟨t, ho, _⟩ | ⟨e, _, hgen, _⟩ | ⟨e, ho, _, _⟩
        · rw [hA] at ho; cases ho
        · exact ⟨e, hgen⟩
        · rw [hA] at ho; cases ho
      obtain ⟨ns', hlen', hle', hmap', hlenb', herr', hq0', hnf'⟩ :=
        ih (k + (runAttempts gen name maxRetries k 0 le).nCalls) le' hrest
      rw [hN] at hmap' hlenb' herr' hq0' hnf'
      set cm := callsOf (runModels gen rest (k + c) le').events with hcm
      have hcalls : callsOf (runModels gen (name :: rest) k le).events
          = attList name 0 c ++ cm := by
        rw [hev, callsOf_append, hC, hN]
      rw [hcalls]
      refine ⟨c :: ns', by simp [hlen'], ?_, ?_, ?_, ?_, ?_, ?_⟩
      · intro x hx
        simp only [List.mem_cons] at hx
        rcases hx with h | h
        · omega
        · exact hle' x h
      · simp [attList_map_fst, hmap']
      · simp only [List.length_append, attList_length, List.length_cons]
        omega
      · intro i hi
        simp only [List.length_append, attList_length] at hi
        by_cases hic : i + 1 < c
        · obtain ⟨e, he, _⟩ := hI i hic
          exact ⟨e, he⟩
        · by_cases hic2 : i + 1 = c
          · obtain ⟨e, he⟩ := hlast
            have : i = c - 1 := by omega
            rw [this]
            exact ⟨e, he⟩
          · obtain ⟨e, he⟩ := herr' (i - c) (by omega)
            refine ⟨e, ?_⟩
            have hidx : k + c + (i - c) = k + i := by omega
            rw [hidx] at he
            exact he
      · intro q0 hq0
        have h0 : 0 < (attList name 0 c).length := by rw [attList_length]; omega
        rw [List.getElem?_append_left h0, attList_getElem?] at hq0
        simp only [if_pos (by omega : 0 < c)] at hq0
        cases hq0
        simp
      · intro i nm a e q hp hg hnf hq
        by_cases hic : i < c
        · have hilt : i < (attList name 0 c).length := by rw [attList_length]; exact hic
          rw [List.getElem?_append_left hilt, attList_getElem?] at hp
          simp only [if_pos hic, Option.some.injEq, Prod.mk.injEq] at hp
          obtain ⟨hnm, _⟩ := hp
          by_cases hic1 : i + 1 < c
          · obtain ⟨e', he', hnfF⟩ := hI i hic1
            rw [he'] at hg
            cases hg
            rw [hnf] at hnfF
            cases hnfF
          · have hi1 : (attList name 0 c).length ≤ i + 1 := by rw [attList_length]; omega
            rw [List.getElem?_append_right hi1] at hq
            have hidx : i + 1 - (attList name 0 c).length = 0 := by
              rw [attList_length]; omega
            rw [hidx] at hq
            obtain ⟨hq2, hq1⟩ := hq0' q hq
            refine ⟨hq2, ?_⟩
            rw [← hnm]
            intro hcontra
            exact hname (hcontra ▸ hq1)
        · have hi1 : (attList name 0 c).length ≤ i := by rw [attList_length]; omega
          rw [List.getElem?_append_right hi1] at hp
          have hi2 : (attList name 0 c).length ≤ i + 1 := by rw [attList_length]; omega
          rw [List.getElem?_append_right hi2] at hq
          have hidxp : i - (attList name 0 c).length = i - c := by rw [attList_length]
          have hidxq : i + 1 - (attList name 0 c).length = (i - c) + 1 := by
            rw [attList_length]; omega
          rw [hidxp] at hp
          rw [hidxq] at hq
          have hgen : gen (k + c + (i - c)) = GenOutcome.err e := by
            have : k + c + (i - c) = k + i := by omega
            rw [this]
            exact hg
          exact hnf' (i - c) nm a e q hp hgen hnf hq

/-- If every upstream call fails, the candidate loop ends raising or
exhausted, carrying one of the returned error strings. -/
theorem runModels_allerr (gen : Nat → GenOutcome)
    (h : ∀ n, ∃ e, gen n = GenOutcome.err e) :
    ∀ ms k le,
      ((runModels gen ms k le).out = LoopOut.exhausted le ∧ ms = []) ∨
      (∃ e, (∃ m, gen m = GenOutcome.err e) ∧
        ((runModels gen ms k le).out = LoopOut.raised e ∨
         (runModels gen ms k le).out = LoopOut.exhausted (some e))) := by
  intro ms
  induction ms with
  | nil =>
    intro k le
    left
    exact ⟨by simp [runModels], rfl⟩
  | cons name rest ih =>
    intro k le
    right
    obtain ⟨c, hc1, hc3, hN, hC, hI, hO⟩ :=
      runAttempts_spec gen name maxRetries 0 k le (by simp [maxRetries]) (by simp [maxRetries])
    rcases hO with ⟨t, ho, hgen⟩ | ⟨e, ho, hgen, hnf⟩ | ⟨e, ho, hgen, hnf⟩
    · obtain ⟨e', he'⟩ := h (k + (c - 1))
      rw [hgen] at he'
      cases he'
    · rcases ih (k + (runAttempts gen name maxRetries k 0 le).nCalls) (some e)
        with ⟨hex, hrest⟩ | ⟨e2, hm2, hout2⟩
      · subst hrest
        refine ⟨e, ⟨k + (c - 1), hgen⟩, Or.inr ?_⟩
        rw [show (runModels gen (name :: []) k le).out
            = (runModels gen [] (k + (runAttempts gen name maxRetries k 0 le).nCalls) (some e)).out
          from by simp [runModels, ho]]
        exact hex
      · refine ⟨e2, hm2, ?_⟩
        rcases hout2 with h2 | h2
        · left
          simpa [runModels, ho] using h2
        · right
          simpa [runModels, ho] using h2
    · refine ⟨e, ⟨k + (c - 1), hgen⟩, Or.inl ?_⟩
      simp [runModels, ho]

theorem runModels_ok_mem (gen : Nat → GenOutcome) :
    ∀ ms k le t name, (runModels gen ms k le).out = LoopOut.ok t name → name ∈ ms := by
  intro ms
  induction ms with
  | nil =>
    intro k le t name h
    simp [runModels] at h
  | cons nm rest ih =>
    intro k le t name h
    cases hA : (runAttempts gen nm maxRetries k 0 le).out with
    | success t0 =>
      simp only [runModels, hA] at h
      obtain ⟨_, h2⟩ := LoopOut.ok.inj h
      exact h2 ▸ List.mem_cons_self nm rest
    | raised e =>
      simp [runModels, hA] at h
    | nextModel le' =>
      simp only [runModels, hA] at h
      exact List.mem_cons_of_mem _ (ih _ _ t name h)

/-! ## Cache-state lemmas (claim C8) -/

theorem classify_cacheAfter_none (gen : Nat → GenOutcome) :
    (classify_regret gen none).cacheAfter = winnerOf gen := by
  cases h : (runModels gen AVAILABLE_MODELS 0 none).out with
  | ok t name => simp [classify_regret, winnerOf, h, pyFalsy]
  | raised e => simp [classify_regret, winnerOf, h]
  | exhausted le => simp [classify_regret, winnerOf, h]

theorem classify_cacheAfter_some (gen : Nat → GenOutcome) (x : List Char) (hx : x ≠ []) :
    (classify_regret gen (some x)).cacheAfter = some x := by
  have hf : pyFalsy (some x) = false := by
    cases x with
    | nil => exact absurd rfl hx
    | cons a t => rfl
  cases h : (runModels gen AVAILABLE_MODELS 0 none).out with
  | ok t name => simp [classify_regret, h, hf]
  | raised e => simp [classify_regret, h]
  | exhausted le => simp [classify_regret, h]

theorem winnerOf_mem (gen : Nat → GenOutcome) (name : List Char)
    (h : winnerOf gen = some name) : name ∈ AVAILABLE_MODELS := by
  unfold winnerOf at h
  cases hA : (runModels gen AVAILABLE_MODELS 0 none).out with
  | ok t nm =>
    rw [hA] at h
    simp only [Option.some.injEq] at h
    exact h ▸ runModels_ok_mem gen AVAILABLE_MODELS 0 none t nm hA
  | raised e => rw [hA] at h; cases h
  | exhausted le => rw [hA] at h; cases h

theorem AVAILABLE_MODELS_ne_nil : ∀ x ∈ AVAILABLE_MODELS, x ≠ [] := by decide

theorem winnerOf_ne_nil (gen : Nat → GenOutcome) (name : List Char)
    (h : winnerOf gen = some name) : name ≠ [] :=
  AVAILABLE_MODELS_ne_nil name (winnerOf_mem gen name h)

theorem foldl_cache_stable :
    ∀ (gens : List (Nat → GenOutcome)) (x : List Char), x ≠ [] →
      List.foldl (fun c g => (classify_regret g c).cacheAfter) (some x) gens = some x := by
  intro gens
  induction gens with
  | nil => intro x _; rfl
  | cons g gs ih =>
    intro x hx
    simp only [List.foldl_cons, classify_cacheAfter_some g x hx]
    exact ih x hx

theorem processRun_eq_findSome? :
    ∀ gens : List (Nat → GenOutcome), processRun gens = gens.findSome? winnerOf := by
  intro gens
  induction gens with
  | nil => rfl
  | cons g gs ih =>
    unfold processRun at ih ⊢
    simp only [List.foldl_cons, classify_cacheAfter_none g]
    cases h : winnerOf g with
    | none =>
      rw [List.findSome?_cons]
      simp only [h]
      exact ih
    | some n =>
      rw [List.findSome?_cons]
      simp only [h]
      exact foldl_cache_stable gs n (winnerOf_ne_nil g n h)

/-- Event-level decomposition of one candidate's retry loop: a call event at
attempt `i` that failed with a non-not-found error is, when `i` is below the
retry ceiling and the error is rate-limit-class, immediately followed by a
backoff sleep of `retryDelay * 2 ^ i` seconds and a call at attempt `i + 1`;
and when `i` is at the ceiling, it is the last event and the loop re-raises. -/
theorem runAttempts_decomp (gen : Nat → GenOutcome) (name : List Char) :
    ∀ r att k le p nm i t, att + r = 3 → 1 ≤ r →
      (runAttempts gen name r k att le).events = p ++ Ev.call nm i :: t →
      nm = name ∧ i = att + countCalls p ∧
      (∀ e, gen (k + countCalls p) = GenOutcome.err e → isNotFoundErr e = false →
        ((isRateLimitErr e = true → i < maxRetries - 1 →
            ∃ t2, t = Ev.sleepEv (retryDelay * 2 ^ i) :: Ev.call name (i + 1) :: t2) ∧
         (maxRetries - 1 ≤ i → t = [] ∧
            (runAttempts gen name r k att le).out = AttOut.raised e))) := by
  intro r
  induction r with
  | zero => intro att k le p nm i t _ h1; omega
  | succ n ih =>
    intro att k le p nm i t hinv _ h
    cases hg : gen k with
    | ok t0 =>
      have hev : (runAttempts gen name (n + 1) k att le).events = [Ev.call name att] := by
        simp [runAttempts, hg]
      rw [hev] at h
      cases p with
      | cons ev p' =>
        simp only [List.cons_append, List.cons.injEq] at h
        exact absurd h.2 (by simp)
      | nil =>
        simp only [List.nil_append, List.cons.injEq, Ev.call.injEq] at h
        obtain ⟨⟨hnm, hi⟩, ht⟩ := h
        refine ⟨hnm.symm, by simpa [countCalls, callsOf] using hi.symm, ?_⟩
        intro e he
        rw [show k + countCalls ([] : List Ev) = k from by simp [countCalls, callsOf]] at he
        rw [hg] at he
        cases he
    | err e0 =>
      by_cases hnf : isNotFoundErr e0 = true
      · have hev : (runAttempts gen name (n + 1) k att le).events = [Ev.call name att] := by
          simp [runAttempts, hg, hnf]
        rw [hev] at h
        cases p with
        | cons ev p' =>
          simp only [List.cons_append, List.cons.injEq] at h
          exact absurd h.2 (by simp)
        | nil =>
          simp only [List.nil_append, List.cons.injEq, Ev.call.injEq] at h
          obtain ⟨⟨hnm, hi⟩, ht⟩ := h
          refine ⟨hnm.symm, by simpa [countCalls, callsOf] using hi.symm, ?_⟩
          intro e he hnfF
          rw [show k + countCalls ([] : List Ev) = k from by simp [countCalls, callsOf]] at he
          rw [hg] at he
          cases he
          rw [hnf] at hnfF
          cases hnfF
      · by_cases hatt : att < maxRetries - 1
        · have hn1 : 1 ≤ n := by simp [maxRetries] at hatt; omega
          have hinv' : (att + 1) + n = 3 := by simp [maxRetries] at hatt; omega
          by_cases hrl : isRateLimitErr e0 = true
          · have hev : (runAttempts gen name (n + 1) k att le).events
                = Ev.call name att :: Ev.sleepEv (retryDelay * 2 ^ att)
                  :: (runAttempts gen name n (k + 1) (att + 1) (some e0)).events := by
              simp [runAttempts, hg, hnf, hrl, hatt]
            have hout : (runAttempts gen name (n + 1) k att le).out
                = (runAttempts gen name n (k + 1) (att + 1) (some e0)).out := by
              simp [runAttempts, hg, hnf, hrl, hatt]
            rw [hev] at h
            cases p with
            | nil =>
              simp only [List.nil_append, List.cons.injEq, Ev.call.injEq] at h
              obtain ⟨⟨hnm, hi⟩, ht⟩ := h
              refine ⟨hnm.symm, by simpa [countCalls, callsOf] using hi.symm, ?_⟩
              intro e he hnfF
              rw [show k + countCalls ([] : List Ev) = k from by simp [countCalls, callsOf]] at he
              rw [hg] at he
              cases he
              constructor
              · intro _ _
                obtain ⟨tl, htl⟩ :=
                  runAttempts_first_event gen name n (k + 1) (att + 1) (some e0) hn1
                rw [← ht, htl, ← hi]
                exact ⟨tl, rfl⟩
              · intro hge
                rw [← hi] at hge
                simp [maxRetries] at hatt hge
                omega
            | cons ev p' =>
              simp only [List.cons_append, List.cons.injEq] at h
              obtain ⟨hev1, h2⟩ := h
              cases p' with
              | nil =>
                simp only [List.nil_append, List.cons.injEq] at h2
                exact absurd h2.1.symm (by simp)
              | cons ev2 p₂ =>
                simp only [List.cons_append, List.cons.injEq] at h2
                obtain ⟨hev2, h3⟩ := h2
                obtain ⟨hnm, hi, hbeh⟩ :=
                  ih (att + 1) (k + 1) (some e0) p₂ nm i t hinv' hn1 h3
                have hcount : countCalls (ev :: ev2 :: p₂) = countCalls p₂ + 1 := by
                  rw [← hev1, ← hev2]
                  rw [countCalls_cons_call, countCalls_cons_sleep]
                refine ⟨hnm, by rw [hcount]; omega, ?_⟩
                intro e he hnfF
                rw [hcount, show k + (countCalls p₂ + 1) = (k + 1) + countCalls p₂ from by omega] at he
                obtain ⟨hb1, hb2⟩ := hbeh e he hnfF
                refine ⟨hb1, ?_⟩
                intro hge
                obtain ⟨ht, ho⟩ := hb2 hge
                exact ⟨ht, by rw [hout]; exact ho⟩
          · have hev : (runAttempts gen name (n + 1) k att le).events
                = Ev.call name att :: Ev.sleepEv retryDelay
                  :: (runAttempts gen name n (k + 1) (att + 1) (some e0)).events := by
              simp [runAttempts, hg, hnf, hrl, hatt]
            have hout : (runAttempts gen name (n + 1) k att le).out
                = (runAttempts gen name n (k + 1) (att + 1) (some e0)).out := by
              simp [runAttempts, hg, hnf, hrl, hatt]
            rw [hev] at h
            cases p with
            | nil =>
              simp only [List.nil_append, List.cons.injEq, Ev.call.injEq] at h
              obtain ⟨⟨hnm, hi⟩, ht⟩ := h
              refine ⟨hnm.symm, by simpa [countCalls, callsOf] using hi.symm, ?_⟩
              intro e he hnfF
              rw [show k + countCalls ([] : List Ev) = k from by simp [countCalls, callsOf]] at he
              rw [hg] at he
              cases he
              constructor
              · intro hrlT _
                rw [hrlT] at hrl
                cases hrl rfl
              · intro hge
                rw [← hi] at hge
                simp [maxRetries] at hatt hge
                omega
            | cons ev p' =>
              simp only [List.cons_append, List.cons.injEq] at h
              obtain ⟨hev1, h2⟩ := h
              cases p' with
              | nil =>
                simp only [List.nil_append, List.cons.injEq] at h2
                exact absurd h2.1.symm (by simp)
              | cons ev2 p₂ =>
                simp only [List.cons_append, List.cons.injEq] at h2
                obtain ⟨hev2, h3⟩ := h2
                obtain ⟨hnm, hi, hbeh⟩ :=
                  ih (att + 1) (k + 1) (some e0) p₂ nm i t hinv' hn1 h3
                have hcount : countCalls (ev :: ev2 :: p₂) = countCalls p₂ + 1 := by
                  rw [← hev1, ← hev2]
                  rw [countCalls_cons_call, countCalls_cons_sleep]
                refine ⟨hnm, by rw [hcount]; omega, ?_⟩
                intro e he hnfF
                rw [hcount, show k + (countCalls p₂ + 1) = (k + 1) + countCalls p₂ from by omega] at he
                obtain ⟨hb1, hb2⟩ := hbeh e he hnfF
                refine ⟨hb1, ?_⟩
                intro hge
                obtain ⟨ht, ho⟩ := hb2 hge
                exact ⟨ht, by rw [hout]; exact ho⟩
        · have hev : (runAttempts gen name (n + 1) k att le).events = [Ev.call name att] := by
            by_cases hrl : isRateLimitErr e0 = true
            · simp [runAttempts, hg, hnf, hrl, hatt]
            · simp [runAttempts, hg, hnf, hrl, hatt]
          have hout : (runAttempts gen name (n + 1) k att le).out = AttOut.raised e0 := by
            by_cases hrl : isRateLimitErr e0 = true
            · simp [runAttempts, hg, hnf, hrl, hatt]
            · simp [runAttempts, hg, hnf, hrl, hatt]
          rw [hev] at h
          cases p with
          | cons ev p' =>
            simp only [List.cons_append, List.cons.injEq] at h
            exact absurd h.2 (by simp)
          | nil =>
            simp only [List.nil_append, List.cons.injEq, Ev.call.injEq] at h
            obtain ⟨⟨hnm, hi⟩, ht⟩ := h
            refine ⟨hnm.symm, by simpa [countCalls, callsOf] using hi.symm, ?_⟩
            intro e he hnfF
            rw [show k + countCalls ([] : List Ev) = k from by simp [countCalls, callsOf]] at he
            rw [hg] at he
            cases he
            constructor
            · intro _ hlt
              rw [← hi] at hlt
              simp [maxRetries] at hatt hlt
              omega
            · intro _
              exact ⟨ht.symm, hout⟩

/-- Event-level decomposition of the whole candidate loop, lifting
`runAttempts_decomp`: the n-th call event corresponds to the n-th oracle
outcome, and a non-not-found failure at a call is followed by backoff and a
retry (below the ceiling) or ends the loop raising (at the ceiling). -/
theorem runModels_decomp (gen : Nat → GenOutcome) :
    ∀ ms k le p nm i t,
      (runModels gen ms k le).events = p ++ Ev.call nm i :: t →
      (∀ e, gen (k + countCalls p) = GenOutcome.err e → isNotFoundErr e = false →
        ((isRateLimitErr e = true → i < maxRetries - 1 →
            ∃ t2, t = Ev.sleepEv (retryDelay * 2 ^ i) :: Ev.call nm (i + 1) :: t2) ∧
         (maxRetries - 1 ≤ i → t = [] ∧
            (runModels gen ms k le).out = LoopOut.raised e))) := by
  intro ms
  induction ms with
  | nil =>
    intro k le p nm i t h
    have h2 : p ++ Ev.call nm i :: t = ([] : List Ev) := by
      rw [← h]; simp [runModels]
    rcases List.append_eq_nil.mp h2 with ⟨_, h3⟩
    cases h3
  | cons name rest ih =>
    intro k le p nm i t h
    cases hA : (runAttempts gen name maxRetries k 0 le).out with
    | success t0 =>
      have hev : (runModels gen (name :: rest) k le).events
          = (runAttempts gen name maxRetries k 0 le).events := by
        simp [runModels, hA]
      rw [hev] at h
      obtain ⟨hnm, hi, hbeh⟩ := runAttempts_decomp gen name maxRetries 0 k le p nm i t
        (by simp [maxRetries]) (by simp [maxRetries]) h
      intro e he hnfF
      obtain ⟨hb1, hb2⟩ := hbeh e he hnfF
      constructor
      · intro hrlT hlt
        obtain ⟨t2, ht2⟩ := hb1 hrlT hlt
        exact ⟨t2, by rw [hnm]; exact ht2⟩
      · intro hge
        obtain ⟨_, ho⟩ := hb2 hge
        rw [hA] at ho
        cases ho
    | raised e0 =>
      have hev : (runModels gen (name :: rest) k le).events
          = (runAttempts gen name maxRetries k 0 le).events := by
        simp [runModels, hA]
      rw [hev] at h
      obtain ⟨hnm, hi, hbeh⟩ := runAttempts_decomp gen name maxRetries 0 k le p nm i t
        (by simp [maxRetries]) (by simp [maxRetries]) h
      intro e he hnfF
      obtain ⟨hb1, hb2⟩ := hbeh e he hnfF
      constructor
      · intro hrlT hlt
        obtain ⟨t2, ht2⟩ := hb1 hrlT hlt
        exact ⟨t2, by rw [hnm]; exact ht2⟩
      · intro hge
        obtain ⟨ht, ho⟩ := hb2 hge
        refine ⟨ht, ?_⟩
        rw [hA] at ho
        obtain rfl := AttOut.raised.inj ho
        simp [runModels, hA]
    | nextModel le' =>
      have hev : (runModels gen (name :: rest) k le).events
          = (runAttempts gen name maxRetries k 0 le).events
            ++ (runModels gen rest (k + (runAttempts gen name maxRetries k 0 le).nCalls) le').events := by
        simp [runModels, hA]
      rw [hev] at h
      rcases append_cons_split (Ev.call nm i)
          (runAttempts gen name maxRetries k 0 le).events
          (runModels gen rest (k + (runAttempts gen name maxRetries k 0 le).nCalls) le').events
          p t h
        with ⟨t₁, hA1, hT⟩ | ⟨p₂, hP, hM⟩
      · obtain ⟨hnm, hi, hbeh⟩ := runAttempts_decomp gen name maxRetries 0 k le p nm i t₁
          (by simp [maxRetries]) (by simp [maxRetries]) hA1
        intro e he hnfF
        obtain ⟨hb1, hb2⟩ := hbeh e he hnfF
        constructor
        · intro hrlT hlt
          obtain ⟨t2, ht2⟩ := hb1 hrlT hlt
          refine ⟨t2 ++ (runModels gen rest
            (k + (runAttempts gen name maxRetries k 0 le).nCalls) le').events, ?_⟩
          rw [hT, ht2, hnm]
          simp
        · intro hge
          obtain ⟨_, ho⟩ := hb2 hge
          rw [hA] at ho
          cases ho
      · intro e he hnfF
        have hcc : countCalls p
            = (runAttempts gen name maxRetries k 0 le).nCalls + countCalls p₂ := by
          rw [hP, countCalls_append, runAttempts_countCalls]
        rw [hcc, show k + ((runAttempts gen name maxRetries k 0 le).nCalls + countCalls p₂)
            = (k + (runAttempts gen name maxRetries k 0 le).nCalls) + countCalls p₂
          from by omega] at he
        obtain ⟨hb1, hb2⟩ :=
          ih (k + (runAttempts gen name maxRetries k 0 le).nCalls) le' p₂ nm i t hM e he hnfF
        constructor
        · exact hb1
        · intro hge
          obtain ⟨ht, ho⟩ := hb2 hge
          refine ⟨ht, ?_⟩
          rw [show (runModels gen (name :: rest) k le).out
              = (runModels gen rest
                  (k + (runAttempts gen name maxRetries k 0 le).nCalls) le').out
            from by simp [runModels, hA]]
          exact ho

/-! ## Bridge lemmas for classify_regret -/

theorem classify_result_eq (gen : Nat → GenOutcome) (cache : Option (List Char)) :
    (classify_regret gen cache).result = sanitize (classify_data gen) := rfl

theorem classify_events_eq (gen : Nat → GenOutcome) (cache : Option (List Char)) :
    (classify_regret gen cache).events = (runModels gen AVAILABLE_MODELS 0 none).events := rfl

theorem sanitize_apiError (e : List Char) :
    sanitize (apiErrorData e) = some (apiDefaultResult e) := rfl

theorem strOrAbsent_obj (ms : List (List Char × Json)) (k : List Char) :
    strOrAbsent (Json.obj ms) k = (jLookup ms k).all Json.isStr := rfl

theorem jgetD_isStr (ms : List (List Char × Json)) (k : List Char) (d : List Char)
    (hs : strOrAbsent (Json.obj ms) k = true) :
    (jgetD ms k (Json.str d)).isStr = true := by
  rw [strOrAbsent_obj] at hs
  unfold jgetD
  cases hl : jLookup ms k with
  | none => rfl
  | some v =>
    rw [hl] at hs
    simpa using hs

/-! ## Extraction lemmas (claim C5) -/

theorem firstLbraceIdx_append (pre l : List Char) (hpre : lbrace ∉ pre)
    (hl : l.head? = some lbrace) : firstLbraceIdx (pre ++ l) = some pre.length := by
  induction pre with
  | nil =>
    cases l with
    | nil => cases hl
    | cons c cs =>
      simp only [List.head?_cons, Option.some.injEq] at hl
      simp [firstLbraceIdx, hl]
  | cons c cs ih =>
    simp only [List.mem_cons, not_or] at hpre
    have hc : ¬(c = lbrace) := fun h => hpre.1 h.symm
    simp [firstLbraceIdx, hc, ih hpre.2]

theorem braceScanAux_append (suf : List Char) :
    ∀ s i d e, braceScanAux s i d = some e → braceScanAux (s ++ suf) i d = some e := by
  intro s
  induction s with
  | nil => intro i d e h; cases h
  | cons c cs ih =>
    intro i d e h
    simp only [List.cons_append, braceScanAux] at h ⊢
    by_cases h1 : c = lbrace
    · simp only [if_pos h1] at h ⊢
      exact ih _ _ _ h
    · by_cases h2 : c = rbrace
      · simp only [if_neg h1, if_pos h2] at h ⊢
        by_cases h3 : d - 1 = 0
        · simpa only [if_pos h3] using h
        · simp only [if_neg h3] at h ⊢
          exact ih _ _ _ h
      · simp only [if_neg h1, if_neg h2] at h ⊢
        exact ih _ _ _ h

/-! ## Concrete upstream behaviours used by witnesses and counterexamples -/

/-- Upstream returns valid JSON whose score value is not `int()`-coercible. -/
def genBadScore : Nat → GenOutcome :=
  fun _ => GenOutcome.ok (strL "\x7b\"regret_score\": \"very high\"\x7d")

/-- Upstream always raises an error not matching any special class. -/
def genAllBoom : Nat → GenOutcome := fun _ => GenOutcome.err (strL "boom")

/-- Upstream returns valid JSON whose `reason` value is a number. -/
def genNumReason : Nat → GenOutcome :=
  fun _ => GenOutcome.ok (strL "\x7b\"regret_score\": 1, \"reason\": 42\x7d")

/-- The spec scenario: upstream returns the full five-key verdict. -/
def scenarioText : List Char :=
  strL "\x7b\"regret_score\": 85, \"reason\": \"Late-night impulsive resignation email.\", \"intervention_strength\": \"BLOCK_HARD\", \"llm_message\": \"Sleep on it. Seriously.\", \"future_regret_simulation\": \"Tomorrow you panic-email HR.\"\x7d"

def genScenario : Nat → GenOutcome := fun _ => GenOutcome.ok scenarioText

def scenarioMembers : List (List Char × Json) :=
  [ (strL "regret_score", Json.num 85)
  , (strL "reason", Json.str (strL "Late-night impulsive resignation email."))
  , (strL "intervention_strength", Json.str (strL "BLOCK_HARD"))
  , (strL "llm_message", Json.str (strL "Sleep on it. Seriously."))
  , (strL "future_regret_simulation", Json.str (strL "Tomorrow you panic-email HR.")) ]

def scenarioResult : ClassificationResult :=
  { regret_score := 85
  , reason := Json.str (strL "Late-night impulsive resignation email.")
  , intervention_strength := Json.str (strL "BLOCK_HARD")
  , llm_message := Json.str (strL "Sleep on it. Seriously.")
  , simulation := Json.str (strL "Tomorrow you panic-email HR.") }

/-- Raw text with a brace in the prose before a balanced JSON object. -/
def rawC5 : List Char :=
  strL "Use \x7bcurly\x7d braces here:\n\x7b\"regret_score\": 1\x7d"

/-- A fenced response with prose around a nested JSON object. -/
def fencedText : List Char :=
  strL "```json\nSure! Here it is:\n\x7b\"a\": \x7b\"b\": 2\x7d\x7d\nHope that helps\n```"

/-- First error is both rate-limit-class and not-found-class; later calls 404. -/
def genC7ce : Nat → GenOutcome :=
  fun n => if n = 0 then GenOutcome.err (strL "quota not found")
           else GenOutcome.err (strL "404")

/-- One rate-limit failure, then success. -/
def genRL : Nat → GenOutcome :=
  fun n => if n = 0 then GenOutcome.err (strL "429")
           else GenOutcome.ok (strL "\x7b\"regret_score\": 3\x7d")

/-- Upstream returns an out-of-range score and a non-enum strength. -/
def genWild : Nat → GenOutcome :=
  fun _ => GenOutcome.ok (strL "\x7b\"regret_score\": 999, \"intervention_strength\": \"BANANA\"\x7d")

/-! ## Claim C1 -/

/-- C1: the claim states that `classify_regret` never raises to its caller for
any upstream behaviour, including any parsed JSON value.  The code violates
this: the sanitize block (lines 233..238) sits outside every `try`, so when
the upstream returns the valid JSON object with `"regret_score": "very high"`,
`int()` at line 234 raises `ValueError` out of `classify_regret`.  This
theorem evaluates the embedding at that failing input: the call ends with an
escaping exception (`result = none`) instead of a default result. -/
theorem C1_raises_on_noncoercible_score :
    (classify_regret genBadScore none).result = none := rfl

/-! ## Claim C2 -/

/-- C2 counterexample: the claim states the four non-score values of the
returned mapping are always strings.  With upstream JSON `"reason": 42` the
call returns and the `reason` field is the number 42, not a string. -/
theorem C2_counterexample :
    ((classify_regret genNumReason none).result.map fun r => r.reason)
      = some (Json.num 42) ∧
    (Json.num 42).isStr = false := ⟨rfl, rfl⟩

/-- C2 (amended): whenever `classify_regret` returns, the result has exactly
the five keys with `regret_score` an integer (both encoded in the
`ClassificationResult` type), and each of the other four values is a string
provided the corresponding entry of the pre-sanitize dict is absent or a
string (values of other JSON types are passed through verbatim). -/
theorem C2_amended_field_types (gen : Nat → GenOutcome) (cache : Option (List Char))
    (r : ClassificationResult) (h : (classify_regret gen cache).result = some r) :
    (strOrAbsent (classify_data gen) (strL "reason") = true → r.reason.isStr = true) ∧
    (strOrAbsent (classify_data gen) (strL "intervention_strength") = true →
      r.intervention_strength.isStr = true) ∧
    (strOrAbsent (classify_data gen) (strL "llm_message") = true →
      r.llm_message.isStr = true) ∧
    (strOrAbsent (classify_data gen) (strL "future_regret_simulation") = true →
      r.simulation.isStr = true) := by
  rw [classify_result_eq] at h
  cases hd : classify_data gen with
  | obj ms =>
    rw [hd] at h
    simp only [sanitize] at h
    split at h
    · rename_i n hp
      obtain rfl := (Option.some.inj h).symm
      exact ⟨fun hs => jgetD_isStr ms _ _ hs, fun hs => jgetD_isStr ms _ _ hs,
        fun hs => jgetD_isStr ms _ _ hs, fun hs => jgetD_isStr ms _ _ hs⟩
    · exact Option.noConfusion h
  | null => rw [hd] at h; exact Option.noConfusion h
  | bool b => rw [hd] at h; exact Option.noConfusion h
  | num n => rw [hd] at h; exact Option.noConfusion h
  | str s => rw [hd] at h; exact Option.noConfusion h
  | arr l => rw [hd] at h; exact Option.noConfusion h

set_option maxRecDepth 4000 in
/-- C2 witness: the amended theorem applied to the scenario stub. -/
theorem C2_witness :
    (classify_regret genScenario none).result = some scenarioResult ∧
    (strOrAbsent (classify_data genScenario) (strL "reason") = true →
      scenarioResult.reason.isStr = true) :=
  ⟨rfl, (C2_amended_field_types genScenario none scenarioResult rfl).1⟩

/-! ## Claim C3 -/

/-- C3: if every upstream call fails, `classify_regret` returns the fixed
safe-default result: score 0, strength "NONE", reason "API error: " followed
by the failure cause (one of the raised error strings), the generic message
"API error occurred.", and an empty simulation. -/
theorem C3_all_fail_default (gen : Nat → GenOutcome) (cache : Option (List Char))
    (h : ∀ n, ∃ e, gen n = GenOutcome.err e) :
    ∃ e, (∃ m, gen m = GenOutcome.err e) ∧
      (classify_regret gen cache).result = some
        { regret_score := 0
        , reason := Json.str (strL "API error: " ++ e)
        , intervention_strength := Json.str (strL "NONE")
        , llm_message := Json.str (strL "API error occurred.")
        , simulation := Json.str [] } := by
  rcases runModels_allerr gen h AVAILABLE_MODELS 0 none with ⟨_, hnil⟩ | ⟨e, hm, hout⟩
  · simp [AVAILABLE_MODELS] at hnil
  · refine ⟨e, hm, ?_⟩
    rw [classify_result_eq]
    unfold classify_data
    rcases hout with ho | ho
    · rw [ho]
      rfl
    · rw [ho]
      rfl

/-- C3 witness: a concrete always-failing upstream. -/
theorem C3_witness :
    (∀ n, ∃ e, genAllBoom n = GenOutcome.err e) ∧
    (∃ e, (∃ m, genAllBoom m = GenOutcome.err e) ∧
      (classify_regret genAllBoom none).result = some
        { regret_score := 0
        , reason := Json.str (strL "API error: " ++ e)
        , intervention_strength := Json.str (strL "NONE")
        , llm_message := Json.str (strL "API error occurred.")
        , simulation := Json.str [] }) :=
  ⟨fun _ => ⟨strL "boom", rfl⟩,
    C3_all_fail_default genAllBoom none (fun _ => ⟨strL "boom", rfl⟩)⟩

/-! ## Claim C4 -/

/-- C4: if the successful upstream output parses to a JSON object containing
all five required keys, then the returned result's fields equal the parsed
values verbatim, with `regret_score` coerced by `int()` and the
`future_regret_simulation` value returned under the `simulation` field. -/
theorem C4_verbatim_fields (gen : Nat → GenOutcome) (cache : Option (List Char))
    (tx nm : List Char) (ms : List (List Char × Json)) (v0 v1 v2 v3 v4 : Json)
    (hok : (runModels gen AVAILABLE_MODELS 0 none).out = LoopOut.ok tx nm)
    (hparse : parsedData tx = some (Json.obj ms))
    (h0 : jLookup ms (strL "regret_score") = some v0)
    (h1 : jLookup ms (strL "reason") = some v1)
    (h2 : jLookup ms (strL "intervention_strength") = some v2)
    (h3 : jLookup ms (strL "llm_message") = some v3)
    (h4 : jLookup ms (strL "future_regret_simulation") = some v4) :
    ∀ r, (classify_regret gen cache).result = some r →
      pyInt v0 = some r.regret_score ∧ r.reason = v1 ∧ r.intervention_strength = v2 ∧
      r.llm_message = v3 ∧ r.simulation = v4 := by
  intro r hr
  rw [classify_result_eq] at hr
  have hd : classify_data gen = Json.obj ms := by
    unfold classify_data
    rw [hok]
    show (match parsedData tx with
      | some j => j
      | none => parseFailData) = Json.obj ms
    rw [hparse]
  rw [hd] at hr
  simp only [sanitize] at hr
  have hg0 : jgetD ms (strL "regret_score") (Json.num 0) = v0 := by
    unfold jgetD
    rw [h0]
    rfl
  rw [hg0] at hr
  split at hr
  · rename_i n hp
    obtain rfl := (Option.some.inj hr).symm
    refine ⟨by simpa using hp, ?_, ?_, ?_, ?_⟩
    · simp [jgetD, h1]
    · simp [jgetD, h2]
    · simp [jgetD, h3]
    · simp [jgetD, h4]
  · exact Option.noConfusion hr

set_option maxRecDepth 4000 in
/-- C4 witness: the spec scenario, evaluated concretely. -/
theorem C4_witness :
    parsedData scenarioText = some (Json.obj scenarioMembers) ∧
    (pyInt (Json.num 85) = some scenarioResult.regret_score ∧
      scenarioResult.reason = Json.str (strL "Late-night impulsive resignation email.") ∧
      scenarioResult.intervention_strength = Json.str (strL "BLOCK_HARD") ∧
      scenarioResult.llm_message = Json.str (strL "Sleep on it. Seriously.") ∧
      scenarioResult.simulation = Json.str (strL "Tomorrow you panic-email HR.")) :=
  ⟨rfl, C4_verbatim_fields genScenario none scenarioText (strL "gemma-3-27b-it")
    scenarioMembers _ _ _ _ _ rfl rfl rfl rfl rfl rfl rfl scenarioResult rfl⟩

/-! ## Claim C5 -/

/-- C5 counterexample: the claim states extraction recovers and parses the
wrapped JSON object for every surrounding prose, provided the object's braces
are balanced.  `rawC5` surrounds the balanced object with prose whose prose
contains a brace pair: the scan locks onto the prose's first brace, extracts
the non-JSON fragment, and parsing fails. -/
theorem C5_counterexample :
    parseJsonText (strL "\x7b\"regret_score\": 1\x7d")
      = some (Json.obj [(strL "regret_score", Json.num 1)]) ∧
    braceScanAux (strL "\x7b\"regret_score\": 1\x7d") 0 0
      = some ((strL "\x7b\"regret_score\": 1\x7d").length - 1) ∧
    extract_json rawC5 = strL "\x7bcurly\x7d" ∧
    parseJsonText (extract_json rawC5) = none := ⟨rfl, rfl, rfl, rfl⟩

/-- C5 (amended): extraction recovers exactly the object substring and parses
it, provided that after fence-stripping no opening brace occurs in the prose
before the object and the brace scan of the object's own text first returns
to zero at its final character (in particular, no stray brace characters
inside its string literals). -/
theorem C5_amended_extraction (tx pre s suf : List Char) (j : Json)
    (hsplit : stripFences tx = pre ++ s ++ suf)
    (hpre : lbrace ∉ pre)
    (hhead : s.head? = some lbrace)
    (hscan : braceScanAux s 0 0 = some (s.length - 1))
    (hparse : parseJsonText s = some j) :
    extract_json tx = s ∧ parseJsonText (extract_json tx) = some j := by
  have hs_ne : s ≠ [] := by
    intro hcon
    rw [hcon] at hhead
    cases hhead
  have hlen : 1 ≤ s.length := by
    cases s with
    | nil => exact absurd rfl hs_ne
    | cons a t => simp
  have h1 : firstLbraceIdx (pre ++ (s ++ suf)) = some pre.length := by
    refine firstLbraceIdx_append pre (s ++ suf) hpre ?_
    cases s with
    | nil => exact absurd rfl hs_ne
    | cons a t => simpa using hhead
  have h2 : (pre ++ (s ++ suf)).drop pre.length = s ++ suf := List.drop_left pre (s ++ suf)
  have h3 : braceScanAux (s ++ suf) 0 0 = some (s.length - 1) :=
    braceScanAux_append suf s 0 0 (s.length - 1) hscan
  have h4 : (s ++ suf).take (s.length - 1 + 1) = s := by
    rw [show s.length - 1 + 1 = s.length from by omega]
    exact List.take_left s suf
  have hext : extract_json tx = s := by
    unfold extract_json find_and_slice
    rw [hsplit, List.append_assoc]
    simp only [h1, h2, h3, h4]
  exact ⟨hext, by rw [hext]; exact hparse⟩

/-- C5 witness: a fenced, prose-wrapped nested object, extracted and parsed. -/
theorem C5_witness :
    stripFences fencedText
      = strL "Sure! Here it is:\n" ++ strL "\x7b\"a\": \x7b\"b\": 2\x7d\x7d"
        ++ strL "\nHope that helps" ∧
    (extract_json fencedText = strL "\x7b\"a\": \x7b\"b\": 2\x7d\x7d" ∧
      parseJsonText (extract_json fencedText)
        = some (Json.obj [(strL "a", Json.obj [(strL "b", Json.num 2)])])) :=
  ⟨rfl, C5_amended_extraction fencedText (strL "Sure! Here it is:\n")
    (strL "\x7b\"a\": \x7b\"b\": 2\x7d\x7d") (strL "\nHope that helps")
    (Json.obj [(strL "a", Json.obj [(strL "b", Json.num 2)])])
    rfl (by decide) rfl rfl rfl⟩

/-! ## Claim C6 -/

/-- C6: in every execution the call trace is, in candidate-list order, a
concatenation of per-candidate blocks of at most `maxRetries = 3` calls each
(hence at most `3 × len(candidates)` upstream calls); every call except
possibly the last returned an error (iteration stops at the first success);
and a not-found-class error is followed, if at all, by attempt 0 of a
different (the next) candidate. -/
theorem C6_candidate_order (gen : Nat → GenOutcome) (cache : Option (List Char)) :
    ∃ ns : List Nat, ns.length = AVAILABLE_MODELS.length ∧ (∀ x ∈ ns, x ≤ maxRetries) ∧
      (callsOf (classify_regret gen cache).events).map Prod.fst
        = (List.zipWith List.replicate ns AVAILABLE_MODELS).flatten ∧
      (callsOf (classify_regret gen cache).events).length
        ≤ maxRetries * AVAILABLE_MODELS.length ∧
      (∀ i, i + 1 < (callsOf (classify_regret gen cache).events).length →
        ∃ e, gen i = GenOutcome.err e) ∧
      (∀ i nm a e q, (callsOf (classify_regret gen cache).events)[i]? = some (nm, a) →
        gen i = GenOutcome.err e → isNotFoundErr e = true →
        (callsOf (classify_regret gen cache).events)[i + 1]? = some q →
        q.2 = 0 ∧ q.1 ≠ nm) := by
  have hnd : AVAILABLE_MODELS.Nodup := by decide
  obtain ⟨ns, hh1, hh2, hh3, hh4, hh5, _, hh7⟩ := runModels_spec gen AVAILABLE_MODELS 0 none hnd
  rw [classify_events_eq]
  refine ⟨ns, hh1, by simpa [maxRetries] using hh2, hh3,
    by simpa [maxRetries] using hh4, ?_, ?_⟩
  · intro i hi
    simpa using hh5 i hi
  · intro i nm a e q hp hg hnf hq
    exact hh7 i nm a e q hp (by simpa using hg) hnf hq

/-- C6 witness: the characterization applied to a concrete oracle. -/
theorem C6_witness :
    ∃ ns : List Nat, ns.length = AVAILABLE_MODELS.length ∧ (∀ x ∈ ns, x ≤ maxRetries) ∧
      (callsOf (classify_regret genC7ce none).events).map Prod.fst
        = (List.zipWith List.replicate ns AVAILABLE_MODELS).flatten ∧
      (callsOf (classify_regret genC7ce none).events).length
        ≤ maxRetries * AVAILABLE_MODELS.length ∧
      (∀ i, i + 1 < (callsOf (classify_regret genC7ce none).events).length →
        ∃ e, genC7ce i = GenOutcome.err e) ∧
      (∀ i nm a e q, (callsOf (classify_regret genC7ce none).events)[i]? = some (nm, a) →
        genC7ce i = GenOutcome.err e → isNotFoundErr e = true →
        (callsOf (classify_regret genC7ce none).events)[i + 1]? = some q →
        q.2 = 0 ∧ q.1 ≠ nm) :=
  C6_candidate_order genC7ce none

/-! ## Claim C7 -/

/-- C7 counterexample: the claim classifies a failure as rate-limit-class by
substring alone ("429", "quota", "rate limit").  The error "quota not found"
is rate-limit-class in that sense, yet at attempt 0 the code's not-found
check takes priority: the candidate is abandoned with no backoff sleep and no
attempt 1 — the trace moves straight to the next candidate's attempt 0. -/
theorem C7_counterexample :
    isRateLimitErr (strL "quota not found") = true ∧
    (classify_regret genC7ce none).events
      = [Ev.call (strL "gemma-3-27b-it") 0, Ev.call (strL "gemma-3-27b-instruct") 0,
         Ev.call (strL "gemini-2.5-flash") 0] := ⟨rfl, rfl⟩

/-- C7 (amended): whenever a rate-limit-class failure that is not also
not-found-class (the not-found check takes priority) occurs at attempt
`i < maxRetries - 1` of a candidate, the classifier sleeps
`retryDelay * 2 ^ i` seconds and then calls the same candidate at attempt
`i + 1`. -/
theorem C7_amended_backoff (gen : Nat → GenOutcome) (cache : Option (List Char))
    (p t : List Ev) (nm : List Char) (i : Nat) (e : List Char)
    (hev : (classify_regret gen cache).events = p ++ Ev.call nm i :: t)
    (he : gen (countCalls p) = GenOutcome.err e)
    (hrl : isRateLimitErr e = true)
    (hnf : isNotFoundErr e = false)
    (hi : i < maxRetries - 1) :
    ∃ t2, t = Ev.sleepEv (retryDelay * 2 ^ i) :: Ev.call nm (i + 1) :: t2 := by
  rw [classify_events_eq] at hev
  have hdec := runModels_decomp gen AVAILABLE_MODELS 0 none p nm i t hev e
    (by simpa using he) hnf
  exact hdec.1 hrl hi

/-- C7 witness: a 429 at attempt 0 backs off 1 second and retries. -/
theorem C7_witness :
    (classify_regret genRL none).events
      = [] ++ Ev.call (strL "gemma-3-27b-it") 0
          :: [Ev.sleepEv 1, Ev.call (strL "gemma-3-27b-it") 1] ∧
    (∃ t2, [Ev.sleepEv 1, Ev.call (strL "gemma-3-27b-it") 1]
      = Ev.sleepEv (retryDelay * 2 ^ 0) :: Ev.call (strL "gemma-3-27b-it") (0 + 1) :: t2) :=
  ⟨rfl, C7_amended_backoff genRL none [] [Ev.sleepEv 1, Ev.call (strL "gemma-3-27b-it") 1]
    (strL "gemma-3-27b-it") 0 (strL "429") rfl rfl rfl rfl (by decide)⟩

/-! ## Claim C8 -/

/-- C8: the process-wide cached model identifier starts as `None`
(`processRun [] = none`), equals the winning candidate of the first
successful call across the process life (`findSome? winnerOf`), once set is
never changed by later calls (both per-call and over any continuation of the
call sequence), and is only ever set to the candidate the loop succeeded
with, a member of the candidate list. -/
theorem C8_cache_set_once :
    processRun [] = none ∧
    (∀ gens : List (Nat → GenOutcome), processRun gens = gens.findSome? winnerOf) ∧
    (∀ (gens more : List (Nat → GenOutcome)) (n : List Char),
      processRun gens = some n → processRun (gens ++ more) = some n) ∧
    (∀ (gen : Nat → GenOutcome) (x : List Char), x ≠ [] →
      (classify_regret gen (some x)).cacheAfter = some x) ∧
    (∀ gen : Nat → GenOutcome, (classify_regret gen none).cacheAfter = winnerOf gen) ∧
    (∀ (gen : Nat → GenOutcome) (tx name : List Char),
      (runModels gen AVAILABLE_MODELS 0 none).out = LoopOut.ok tx name →
      winnerOf gen = some name ∧ name ∈ AVAILABLE_MODELS) := by
  refine ⟨rfl, processRun_eq_findSome?, ?_, classify_cacheAfter_some,
    classify_cacheAfter_none, ?_⟩
  · intro gens more n hn
    have hne : n ≠ [] := by
      rw [processRun_eq_findSome?] at hn
      obtain ⟨g, _, hg⟩ := List.exists_of_findSome?_eq_some hn
      exact winnerOf_ne_nil g n hg
    unfold processRun at hn ⊢
    rw [List.foldl_append, hn]
    exact foldl_cache_stable more n hne
  · intro gen tx name hok
    constructor
    · unfold winnerOf
      rw [hok]
    · exact runModels_ok_mem gen AVAILABLE_MODELS 0 none tx name hok

set_option maxRecDepth 4000 in
/-- C8 witness: a failing call leaves the cache empty, a succeeding call sets
it, and a later call does not change it. -/
theorem C8_witness :
    processRun [genAllBoom, genScenario] = some (strL "gemma-3-27b-it") ∧
    processRun ([genAllBoom, genScenario] ++ [genC7ce]) = some (strL "gemma-3-27b-it") :=
  ⟨rfl, C8_cache_set_once.2.2.1 [genAllBoom, genScenario] [genC7ce]
    (strL "gemma-3-27b-it") rfl⟩

/-! ## Claim C9 -/

/-- C9: after a successful parse, no range clamping of the score and no enum
check of the strength is performed: for any parsed object, the returned score
is exactly `int()` of the parsed value — the theorem holds for every integer
`n`, including values outside 0..100 — and the strength is the parsed value
verbatim — for every JSON value, including strings outside the enum. -/
theorem C9_no_validation (gen : Nat → GenOutcome) (cache : Option (List Char))
    (tx nm : List Char) (ms : List (List Char × Json)) (v : Json) (n : Int)
    (hok : (runModels gen AVAILABLE_MODELS 0 none).out = LoopOut.ok tx nm)
    (hparse : parsedData tx = some (Json.obj ms))
    (h0 : jLookup ms (strL "regret_score") = some v)
    (hn : pyInt v = some n) :
    ∃ r, (classify_regret gen cache).result = some r ∧ r.regret_score = n ∧
      (∀ v2, jLookup ms (strL "intervention_strength") = some v2 →
        r.intervention_strength = v2) := by
  have hd : classify_data gen = Json.obj ms := by
    unfold classify_data
    rw [hok]
    show (match parsedData tx with
      | some j => j
      | none => parseFailData) = Json.obj ms
    rw [hparse]
  rw [classify_result_eq, hd]
  simp only [sanitize]
  have hg0 : jgetD ms (strL "regret_score") (Json.num 0) = v := by
    unfold jgetD
    rw [h0]
    rfl
  rw [hg0, hn]
  refine ⟨_, rfl, rfl, ?_⟩
  intro v2 h2
  simp [jgetD, h2]

set_option maxRecDepth 4000 in
/-- C9 witness: score 999 and strength "BANANA" pass through unchecked. -/
theorem C9_witness :
    ∃ r, (classify_regret genWild none).result = some r ∧ r.regret_score = 999 ∧
      (∀ v2, jLookup [ (strL "regret_score", Json.num 999)
                     , (strL "intervention_strength", Json.str (strL "BANANA")) ]
          (strL "intervention_strength") = some v2 → r.intervention_strength = v2) :=
  C9_no_validation genWild none _ _ _ _ 999 rfl rfl rfl rfl

/-! ## Claim C10 -/

/-- C10: when a candidate errors at its final attempt (index
`maxRetries - 1 = 2`) with a non-not-found error, the exception is re-raised
inside `classify_regret`: the trace ends at that call (no later candidate is
attempted), the candidate loop ends in `raised`, and the call returns the
API-error default embedding that error. -/
theorem C10_exhaustion_aborts (gen : Nat → GenOutcome) (cache : Option (List Char))
    (p t : List Ev) (nm : List Char) (e : List Char)
    (hev : (classify_regret gen cache).events = p ++ Ev.call nm (maxRetries - 1) :: t)
    (he : gen (countCalls p) = GenOutcome.err e)
    (hnf : isNotFoundErr e = false) :
    t = [] ∧ (runModels gen AVAILABLE_MODELS 0 none).out = LoopOut.raised e ∧
      (classify_regret gen cache).result = some (apiDefaultResult e) := by
  rw [classify_events_eq] at hev
  have hdec := runModels_decomp gen AVAILABLE_MODELS 0 none p nm (maxRetries - 1) t hev e
    (by simpa using he) hnf
  obtain ⟨ht, ho⟩ := hdec.2 (le_refl _)
  refine ⟨ht, ho, ?_⟩
  rw [classify_result_eq]
  unfold classify_data
  rw [ho]
  rfl

/-- C10 witness: three failures on the first candidate abort the whole loop. -/
theorem C10_witness :
    (classify_regret genAllBoom none).events
      = [Ev.call (strL "gemma-3-27b-it") 0, Ev.sleepEv 1, Ev.call (strL "gemma-3-27b-it") 1,
         Ev.sleepEv 1] ++ Ev.call (strL "gemma-3-27b-it") (maxRetries - 1) :: [] ∧
    (([] : List Ev) = [] ∧
      (runModels genAllBoom AVAILABLE_MODELS 0 none).out = LoopOut.raised (strL "boom") ∧
      (classify_regret genAllBoom none).result = some (apiDefaultResult (strL "boom"))) :=
  ⟨rfl, C10_exhaustion_aborts genAllBoom none
    [Ev.call (strL "gemma-3-27b-it") 0, Ev.sleepEv 1, Ev.call (strL "gemma-3-27b-it") 1,
     Ev.sleepEv 1]
    [] (strL "gemma-3-27b-it") (strL "boom") rfl rfl rfl⟩

end RegretGPT
